import Mathlib

/-!
Verification of the WebP auto-quality optimizer
(`src/auto_quality_optimizer-webp.py`).

For each image the script binary-searches the integer quality range
`[MIN_QUALITY, MAX_QUALITY]`, driven by an SSIM similarity oracle, and then
re-encodes once at the best quality found.  We model, in exact rational
arithmetic:
  * the search loop of `auto_optimize_images` (lines 74-97), with the
    measured similarity abstracted as an oracle `sim : quality → ℚ`;
  * the external `cwebp` command lines it issues (lines 83 and 102);
  * the batch loop with its exception propagation (`subprocess.run` with
    `check=True` raises, and no handler surrounds the per-image body);
  * `calculate_ssim` (lines 30-47), including skimage's
    `structural_similarity` with its defaults as called here: 7×7 uniform
    windows, sample covariance, `K1 = 0.01`, `K2 = 0.03`, and
    `data_range = img2.max() - img2.min()`.
-/

namespace WebpOpt

/-- Configuration constant `TARGET_SSIM = 0.98` (source line 16). -/
def TARGET_SSIM : ℚ := 98 / 100

/-- Configuration constant `MIN_QUALITY = 40` (source line 19). -/
def MIN_QUALITY : Int := 40

/-- Configuration constant `MAX_QUALITY = 95` (source line 20). -/
def MAX_QUALITY : Int := 95

/-- Configuration constant `WEBP_METHOD = 6` (source line 23). -/
def WEBP_METHOD : Int := 6

/-- The `while low <= high` loop of `auto_optimize_images` (source lines
79-97).  Python's `(low + high) // 2` is floor division, i.e. `Int.fdiv`.
The `fuel` argument bounds the number of remaining iterations; running
`searchGo` with fuel `(high + 1 - low).toNat` computes the loop exactly
(`searchGo_fuel_ge` below shows extra fuel never changes the result, i.e.
the loop terminates).  The result is the final `best_quality` together
with the iteration trace: one pair
`(tested quality, value of best_quality after the iteration)` per executed
loop body, in execution order. -/
def searchGo (sim : Int → ℚ) (target : ℚ) :
    Nat → Int → Int → Int → Int × List (Int × Int)
  | 0, _, _, best => (best, [])
  | fuel + 1, low, high, best =>
    if low ≤ high then
      let quality := Int.fdiv (low + high) 2
      if target ≤ sim quality then
        let r := searchGo sim target fuel low (quality - 1) quality
        (r.1, (quality, quality) :: r.2)
      else
        let r := searchGo sim target fuel (quality + 1) high best
        (r.1, (quality, best) :: r.2)
    else
      (best, [])

/-- The binary search of `auto_optimize_images` (source lines 75-97):
`low` starts at the quality floor, `high` at the quality ceiling, and
`best_quality` is initialized to the ceiling.  In the script the floor and
ceiling are the constants `MIN_QUALITY` and `MAX_QUALITY`; we keep them as
parameters, as the spec's `find_min_quality` contract does. -/
def findBestQuality (sim : Int → ℚ) (target : ℚ) (floor ceiling : Int) :
    Int × List (Int × Int) :=
  searchGo sim target (ceiling + 1 - floor).toNat floor ceiling ceiling

/-- One-step unfolding of `searchGo` at positive fuel. -/
lemma searchGo_succ (sim : Int → ℚ) (target : ℚ) (fuel : Nat)
    (low high best : Int) :
    searchGo sim target (fuel + 1) low high best =
      if low ≤ high then
        let quality := Int.fdiv (low + high) 2
        if target ≤ sim quality then
          let r := searchGo sim target fuel low (quality - 1) quality
          (r.1, (quality, quality) :: r.2)
        else
          let r := searchGo sim target fuel (quality + 1) high best
          (r.1, (quality, best) :: r.2)
      else
        (best, []) := rfl

/-- The midpoint `(low + high) // 2` stays within `[low, high]`. -/
lemma fdiv_two_le {low high : Int} (h : low ≤ high) :
    low ≤ Int.fdiv (low + high) 2 ∧ Int.fdiv (low + high) 2 ≤ high := by
  rw [Int.fdiv_eq_ediv _ (by norm_num)]
  omega

/-- Fuel irrelevance, successor form: one extra unit of fuel beyond the
measure `high + 1 - low` changes nothing. -/
lemma searchGo_fuel_succ (sim : Int → ℚ) (target : ℚ) (fuel : Nat) :
    ∀ low high best : Int, (high + 1 - low).toNat ≤ fuel →
      searchGo sim target (fuel + 1) low high best =
        searchGo sim target fuel low high best := by
  induction fuel with
  | zero =>
    intro low high best h
    have hlh : ¬ low ≤ high := by omega
    rw [searchGo_succ]
    simp [searchGo, hlh]
  | succ n ih =>
    intro low high best h
    rw [searchGo_succ, searchGo_succ]
    by_cases hlh : low ≤ high
    · have hmid := fdiv_two_le hlh
      simp only [if_pos hlh]
      by_cases hsim : target ≤ sim (Int.fdiv (low + high) 2)
      · simp only [if_pos hsim]
        rw [ih low (Int.fdiv (low + high) 2 - 1) (Int.fdiv (low + high) 2)
          (by omega)]
      · simp only [if_neg hsim]
        rw [ih (Int.fdiv (low + high) 2 + 1) high best (by omega)]
    · simp only [if_neg hlh]

/-- Termination of the search loop: any fuel at least the measure
`high + 1 - low` yields the same run as the measure itself, so the loop
reaches `low > high` rather than exhausting fuel. -/
lemma searchGo_fuel_ge (sim : Int → ℚ) (target : ℚ) (fuel : Nat)
    (low high best : Int) (h : (high + 1 - low).toNat ≤ fuel) :
    searchGo sim target fuel low high best =
      searchGo sim target (high + 1 - low).toNat low high best := by
  induction fuel, h using Nat.le_induction with
  | base => rfl
  | succ n hn ih => rw [searchGo_fuel_succ sim target n low high best hn, ih]

/-- The loop body is skipped entirely once `low > high`, whatever the fuel. -/
lemma searchGo_not_le (sim : Int → ℚ) (target : ℚ) (fuel : Nat)
    (low high best : Int) (h : ¬ low ≤ high) :
    searchGo sim target fuel low high best = (best, []) := by
  cases fuel with
  | zero => rfl
  | succ n => rw [searchGo_succ]; simp [h]

/-- If no quality in `[floor, ceiling]` reaches the target, `best_quality`
is never overwritten. -/
lemma searchGo_none_meets (sim : Int → ℚ) (target : ℚ) (floor ceiling : Int)
    (hall : ∀ q : Int, floor ≤ q → q ≤ ceiling → sim q < target) :
    ∀ (fuel : Nat) (low high best : Int), floor ≤ low → high ≤ ceiling →
      (searchGo sim target fuel low high best).1 = best := by
  intro fuel
  induction fuel with
  | zero => intro low high best _ _; rfl
  | succ n ih =>
    intro low high best h1 h2
    rw [searchGo_succ]
    by_cases hlh : low ≤ high
    · have hmid := fdiv_two_le hlh
      have hs : sim (Int.fdiv (low + high) 2) < target :=
        hall _ (by omega) (by omega)
      simp only [if_pos hlh, if_neg (not_le.mpr hs)]
      exact ih _ _ _ (by omega) h2
    · simp only [if_neg hlh]

/-- Binary-search invariant for a monotone oracle: if `q0` is the least
quality at or above `floor` meeting the target, and the current state
satisfies `floor ≤ low ≤ q0`, `q0 ≤ best`, and `best = q0 ∨ q0 ≤ high`,
then the loop ends with `best_quality = q0`. -/
lemma searchGo_least (sim : Int → ℚ) (target : ℚ) (floor q0 : Int)
    (hmono : ∀ a b : Int, a ≤ b → sim a ≤ sim b)
    (hq0 : target ≤ sim q0)
    (hleast : ∀ q : Int, floor ≤ q → q < q0 → sim q < target) :
    ∀ (fuel : Nat) (low high best : Int), (high + 1 - low).toNat ≤ fuel →
      floor ≤ low → low ≤ q0 → q0 ≤ best → (best = q0 ∨ q0 ≤ high) →
      (searchGo sim target fuel low high best).1 = q0 := by
  intro fuel
  induction fuel with
  | zero =>
    intro low high best hf h1 h2 h3 h4
    rcases h4 with h4 | h4
    · simpa [searchGo] using h4
    · exact absurd hf (by omega)
  | succ n ih =>
    intro low high best hf h1 h2 h3 h4
    rw [searchGo_succ]
    by_cases hlh : low ≤ high
    · have hmid := fdiv_two_le hlh
      by_cases hsim : target ≤ sim (Int.fdiv (low + high) 2)
      · have hq0mid : q0 ≤ Int.fdiv (low + high) 2 := by
          by_contra hc
          exact absurd hsim
            (not_le.mpr (hleast (Int.fdiv (low + high) 2) (by omega) (by omega)))
        simp only [if_pos hlh, if_pos hsim]
        exact ih low (Int.fdiv (low + high) 2 - 1) (Int.fdiv (low + high) 2)
          (by omega) h1 h2 hq0mid (by omega)
      · have hmidq0 : Int.fdiv (low + high) 2 < q0 := by
          by_contra hc
          exact hsim (le_trans hq0 (hmono q0 (Int.fdiv (low + high) 2) (by omega)))
        simp only [if_pos hlh, if_neg hsim]
        exact ih (Int.fdiv (low + high) 2 + 1) high best (by omega) (by omega)
          (by omega) h3 h4
    · simp only [if_neg hlh]
      rcases h4 with h4 | h4
      · exact h4
      · exact absurd h4 (by omega)

/-- Range invariant: starting from a state whose bounds and best value lie
in `[floor, ceiling]`, every tested quality and the final best quality stay
in `[floor, ceiling]`. -/
lemma searchGo_bounds (sim : Int → ℚ) (target : ℚ) (floor ceiling : Int) :
    ∀ (fuel : Nat) (low high best : Int), floor ≤ low → high ≤ ceiling →
      floor ≤ best → best ≤ ceiling →
      (floor ≤ (searchGo sim target fuel low high best).1 ∧
        (searchGo sim target fuel low high best).1 ≤ ceiling) ∧
      ∀ e ∈ (searchGo sim target fuel low high best).2,
        floor ≤ e.1 ∧ e.1 ≤ ceiling := by
  intro fuel
  induction fuel with
  | zero =>
    intro low high best h1 h2 h3 h4
    exact ⟨⟨h3, h4⟩, by simp [searchGo]⟩
  | succ n ih =>
    intro low high best h1 h2 h3 h4
    rw [searchGo_succ]
    by_cases hlh : low ≤ high
    · have hmid := fdiv_two_le hlh
      by_cases hsim : target ≤ sim (Int.fdiv (low + high) 2)
      · simp only [if_pos hlh, if_pos hsim]
        obtain ⟨hr1, hr2⟩ := ih low (Int.fdiv (low + high) 2 - 1)
          (Int.fdiv (low + high) 2) h1 (by omega) (by omega) (by omega)
        refine ⟨hr1, ?_⟩
        intro e he
        rcases List.mem_cons.mp he with rfl | he
        · exact ⟨by omega, by omega⟩
        · exact hr2 e he
      · simp only [if_pos hlh, if_neg hsim]
        obtain ⟨hr1, hr2⟩ := ih (Int.fdiv (low + high) 2 + 1) high best
          (by omega) h2 h3 h4
        refine ⟨hr1, ?_⟩
        intro e he
        rcases List.mem_cons.mp he with rfl | he
        · exact ⟨by omega, by omega⟩
        · exact hr2 e he
    · simp only [if_neg hlh]
      exact ⟨⟨h3, h4⟩, by simp⟩

/-- Iteration-count bound: the number of loop iterations is at most
`⌊log2 (high + 1 - low)⌋ + 1`. -/
lemma searchGo_length_le (sim : Int → ℚ) (target : ℚ) :
    ∀ (fuel : Nat) (low high best : Int), (high + 1 - low).toNat ≤ fuel →
      (searchGo sim target fuel low high best).2.length ≤
        Nat.log 2 (high + 1 - low).toNat + 1 := by
  intro fuel
  induction fuel with
  | zero =>
    intro low high best h
    rw [searchGo_not_le sim target 0 low high best (by omega)]
    simp
  | succ n ih =>
    intro low high best h
    by_cases hlh : low ≤ high
    · have hmid := fdiv_two_le hlh
      have h2mid : 2 * Int.fdiv (low + high) 2 ≤ low + high ∧
          low + high < 2 * Int.fdiv (low + high) 2 + 2 := by
        rw [Int.fdiv_eq_ediv _ (by norm_num)]
        omega
      rw [searchGo_succ]
      by_cases hsim : target ≤ sim (Int.fdiv (low + high) 2)
      · simp only [if_pos hlh, if_pos hsim, List.length_cons]
        by_cases hz : (Int.fdiv (low + high) 2 - 1 + 1 - low).toNat = 0
        · rw [searchGo_not_le sim target n low (Int.fdiv (low + high) 2 - 1)
            (Int.fdiv (low + high) 2) (by omega)]
          simp
        · have h1 := ih low (Int.fdiv (low + high) 2 - 1)
            (Int.fdiv (low + high) 2) (by omega)
          have hlog : Nat.log 2 (Int.fdiv (low + high) 2 - 1 + 1 - low).toNat + 1 ≤
              Nat.log 2 (high + 1 - low).toNat := by
            calc Nat.log 2 (Int.fdiv (low + high) 2 - 1 + 1 - low).toNat + 1
                = Nat.log 2 ((Int.fdiv (low + high) 2 - 1 + 1 - low).toNat * 2) :=
                  (Nat.log_mul_base (by norm_num) hz).symm
              _ ≤ Nat.log 2 (high + 1 - low).toNat :=
                  Nat.log_mono_right (by omega)
          omega
      · simp only [if_pos hlh, if_neg hsim, List.length_cons]
        by_cases hz : (high + 1 - (Int.fdiv (low + high) 2 + 1)).toNat = 0
        · rw [searchGo_not_le sim target n (Int.fdiv (low + high) 2 + 1) high best
            (by omega)]
          simp
        · have h1 := ih (Int.fdiv (low + high) 2 + 1) high best (by omega)
          have hlog : Nat.log 2 (high + 1 - (Int.fdiv (low + high) 2 + 1)).toNat + 1 ≤
              Nat.log 2 (high + 1 - low).toNat := by
            calc Nat.log 2 (high + 1 - (Int.fdiv (low + high) 2 + 1)).toNat + 1
                = Nat.log 2 ((high + 1 - (Int.fdiv (low + high) 2 + 1)).toNat * 2) :=
                  (Nat.log_mul_base (by norm_num) hz).symm
              _ ≤ Nat.log 2 (high + 1 - low).toNat :=
                  Nat.log_mono_right (by omega)
          omega
    · rw [searchGo_not_le sim target (n + 1) low high best hlh]
      simp

/-- Chain invariant: provided `high ≤ best` (true initially, where both are
the ceiling), the sequence of `best_quality` values along the run is
non-increasing. -/
lemma searchGo_best_chain (sim : Int → ℚ) (target : ℚ) :
    ∀ (fuel : Nat) (low high best : Int), high ≤ best →
      List.Chain (fun a b => b ≤ a) best
        ((searchGo sim target fuel low high best).2.map Prod.snd) := by
  intro fuel
  induction fuel with
  | zero =>
    intro low high best _
    simp [searchGo]
  | succ n ih =>
    intro low high best h
    rw [searchGo_succ]
    by_cases hlh : low ≤ high
    · have hmid := fdiv_two_le hlh
      by_cases hsim : target ≤ sim (Int.fdiv (low + high) 2)
      · simp only [if_pos hlh, if_pos hsim, List.map_cons]
        exact List.Chain.cons (by omega)
          (ih low (Int.fdiv (low + high) 2 - 1) (Int.fdiv (low + high) 2) (by omega))
      · simp only [if_pos hlh, if_neg hsim, List.map_cons]
        exact List.Chain.cons le_rfl (ih (Int.fdiv (low + high) 2 + 1) high best h)
    · simp [if_neg hlh]

/-- The search-phase encoder command (source line 83):
`cwebp -q <quality> -m 6 <input> -o <temp>`. -/
def searchCmd (quality : Int) (input_path temp_path : String) : List String :=
  ["cwebp", "-q", toString quality, "-m", toString WEBP_METHOD, input_path,
    "-o", temp_path]

/-- The final encoder command (source line 102):
`cwebp -q <best> -m 6 -mt -sharp_yuv <input> -o <output>`. -/
def finalCmd (best_quality : Int) (input_path output_path : String) :
    List String :=
  ["cwebp", "-q", toString best_quality, "-m", toString WEBP_METHOD, "-mt",
    "-sharp_yuv", input_path, "-o", output_path]

/-- One image's processing (source lines 74-103): the quality search
followed by one final encode.  Returns the best quality found, the list of
search-phase commands in execution order, and the list of final-encode
commands — a singleton, since the loop body issues exactly one final
`cwebp` run per image. -/
def processImage (sim : Int → ℚ) (target : ℚ) (floor ceiling : Int)
    (input_path temp_path output_path : String) :
    Int × List (List String) × List (List String) :=
  ((findBestQuality sim target floor ceiling).1,
    (findBestQuality sim target floor ceiling).2.map
      (fun e => searchCmd e.1 input_path temp_path),
    [finalCmd (findBestQuality sim target floor ceiling).1 input_path
      output_path])

/-- Similarity oracle of the spec's scenario: 0.99 from quality 60 upward,
0.97 below (the threshold 0.98 crosses between 50 and 60). -/
def simStep60 : Int → ℚ := fun q => if (60:Int) ≤ q then 99 / 100 else 97 / 100

/-- Similarity oracle that reaches the target only at the ceiling. -/
def simCeilOnly : Int → ℚ := fun q => if (95:Int) ≤ q then 1 else 0

/-- Similarity oracle that never reaches the target. -/
def simZero : Int → ℚ := fun _ => 0

/-- A concrete input path, as built on source line 67. -/
def pathIn : String := "images/photo.png"

/-- The scratch path, as built on source line 70. -/
def pathTmp : String := "optimized_images/temp.webp"

/-- A concrete output path, as built on source line 69. -/
def pathOut : String := "optimized_images/photo.webp"

/-- Claim C1: for a similarity oracle monotone non-decreasing in quality,
the quality search returns the least quality `q0` in `[floor, ceiling]`
whose similarity meets the target. -/
theorem search_returns_least_meeting_quality (sim : Int → ℚ) (target : ℚ)
    (floor ceiling q0 : Int)
    (hmono : ∀ a b : Int, a ≤ b → sim a ≤ sim b)
    (hfloor : floor ≤ q0) (hceil : q0 ≤ ceiling)
    (hmeets : target ≤ sim q0)
    (hleast : ∀ q : Int, floor ≤ q → q < q0 → sim q < target) :
    (findBestQuality sim target floor ceiling).1 = q0 :=
  searchGo_least sim target floor q0 hmono hmeets hleast _ floor ceiling ceiling
    le_rfl le_rfl hfloor hceil (Or.inr hceil)

/-- Claim C1 witness: the spec scenario (floor 40, ceiling 95, target 0.98,
similarity 0.99 from quality 60 on and 0.97 below) converges to 60. -/
theorem search_returns_least_meeting_quality_witness :
    TARGET_SSIM ≤ simStep60 60 ∧
      (findBestQuality simStep60 TARGET_SSIM MIN_QUALITY MAX_QUALITY).1 = 60 :=
  ⟨by with_unfolding_all decide,
    search_returns_least_meeting_quality simStep60 TARGET_SSIM 40 95 60
      (fun a b hab => by
        simp only [simStep60]
        by_cases ha : (60:Int) ≤ a
        · rw [if_pos ha, if_pos (by omega)]
        · rw [if_neg ha]
          by_cases hb : (60:Int) ≤ b
          · rw [if_pos hb]; norm_num
          · rw [if_neg hb])
      (by decide) (by decide) (by with_unfolding_all decide)
      (fun q _ h2 => by
        simp only [simStep60]
        rw [if_neg (by omega)]
        norm_num [TARGET_SSIM])⟩

/-- Claim C4: for any `floor ≤ ceiling` the quality-search loop terminates
— any fuel at least the loop measure `ceiling + 1 - floor` produces the
same run — with at most `⌈log2 (ceiling - floor + 1)⌉ + 1` search-phase
encoder invocations, followed by exactly one final encoder invocation. -/
theorem search_terminates_within_log_bound (sim : Int → ℚ) (target : ℚ)
    (floor ceiling : Int) (fuel : Nat)
    (input_path temp_path output_path : String)
    (hfc : floor ≤ ceiling) (hfuel : (ceiling + 1 - floor).toNat ≤ fuel) :
    searchGo sim target fuel floor ceiling ceiling =
        findBestQuality sim target floor ceiling ∧
      (processImage sim target floor ceiling input_path temp_path
          output_path).2.1.length ≤ Nat.clog 2 (ceiling - floor + 1).toNat + 1 ∧
      (processImage sim target floor ceiling input_path temp_path
          output_path).2.2.length = 1 := by
  refine ⟨searchGo_fuel_ge sim target fuel floor ceiling ceiling hfuel, ?_, rfl⟩
  have h1 := searchGo_length_le sim target ((ceiling + 1 - floor).toNat)
    floor ceiling ceiling le_rfl
  have h2 := Nat.log_le_clog 2 (ceiling + 1 - floor).toNat
  have h3 : (ceiling - floor + 1).toNat = (ceiling + 1 - floor).toNat := by omega
  simp only [processImage, List.length_map, findBestQuality, h3]
  omega

/-- Claim C4 witness: the default configuration (floor 40, ceiling 95). -/
theorem search_terminates_within_log_bound_witness :
    (40:Int) ≤ 95 ∧
      (searchGo simStep60 TARGET_SSIM 56 40 95 95 =
          findBestQuality simStep60 TARGET_SSIM 40 95 ∧
        (processImage simStep60 TARGET_SSIM 40 95 pathIn pathTmp
            pathOut).2.1.length ≤ Nat.clog 2 ((95:Int) - 40 + 1).toNat + 1 ∧
        (processImage simStep60 TARGET_SSIM 40 95 pathIn pathTmp
            pathOut).2.2.length = 1) :=
  ⟨by decide,
    search_terminates_within_log_bound simStep60 TARGET_SSIM 40 95 56
      pathIn pathTmp pathOut (by decide) (by decide)⟩

/-- Claim C5: if no tested quality can reach the target, the search returns
the ceiling without any error path, and the single final encode runs at the
ceiling quality. -/
theorem unmet_target_falls_back_to_ceiling (sim : Int → ℚ) (target : ℚ)
    (floor ceiling : Int) (input_path temp_path output_path : String)
    (hall : ∀ q : Int, floor ≤ q → q ≤ ceiling → sim q < target) :
    (findBestQuality sim target floor ceiling).1 = ceiling ∧
      (processImage sim target floor ceiling input_path temp_path
          output_path).2.2 = [finalCmd ceiling input_path output_path] := by
  have h : (findBestQuality sim target floor ceiling).1 = ceiling :=
    searchGo_none_meets sim target floor ceiling hall _ floor ceiling ceiling
      le_rfl le_rfl
  refine ⟨h, ?_⟩
  simp only [processImage]
  rw [h]

/-- Claim C5 witness: an oracle that always reports similarity 0 ends at
the ceiling 95. -/
theorem unmet_target_falls_back_to_ceiling_witness :
    simZero 95 < TARGET_SSIM ∧
      (findBestQuality simZero TARGET_SSIM 40 95).1 = 95 :=
  ⟨by with_unfolding_all decide,
    (unmet_target_falls_back_to_ceiling simZero TARGET_SSIM 40 95
      pathIn pathTmp pathOut
      (fun q _ _ => by simp only [simZero]; norm_num [TARGET_SSIM])).1⟩

/-- Claim C9 (amended): the `best_quality` values along one image's search,
starting from the initialized ceiling, form a non-increasing sequence. -/
theorem best_quality_nonincreasing (sim : Int → ℚ) (target : ℚ)
    (floor ceiling : Int) :
    List.Chain (fun a b => b ≤ a) ceiling
      ((findBestQuality sim target floor ceiling).2.map Prod.snd) :=
  searchGo_best_chain sim target _ floor ceiling ceiling le_rfl

/-- The best-quality values along a search run: the initialized ceiling
(source line 77) followed by the value of `best_quality` after each
iteration. -/
def bestsAfter (ceiling : Int) (trace : List (Int × Int)) : List Int :=
  ceiling :: trace.map Prod.snd

/-- Claim C9's update rule as stated: every iteration that meets the
threshold records a best value strictly below the current one. -/
def StrictUpdates (sim : Int → ℚ) (target : ℚ) (ceiling : Int)
    (trace : List (Int × Int)) : Prop :=
  ∀ k : Nat, k < trace.length → target ≤ sim (trace.getD k (0, 0)).1 →
    (bestsAfter ceiling trace).getD (k + 1) 0 <
      (bestsAfter ceiling trace).getD k 0

instance strictUpdatesDecidable (sim : Int → ℚ) (target : ℚ) (ceiling : Int)
    (trace : List (Int × Int)) :
    Decidable (StrictUpdates sim target ceiling trace) := by
  unfold StrictUpdates
  infer_instance

/-- Claim C9 counterexample: with the default configuration and an oracle
met only at quality 95, the search climbs to `low = high = 95`; the single
threshold-meeting iteration re-records `best_quality = 95` while the
current best is already 95 — equal to, not strictly below, its current
value. -/
theorem best_quality_strict_update_cex :
    ¬ StrictUpdates simCeilOnly TARGET_SSIM MAX_QUALITY
      (findBestQuality simCeilOnly TARGET_SSIM MIN_QUALITY MAX_QUALITY).2 := by
  with_unfolding_all decide

/-- Claim C10: with `floor ≤ ceiling`, the returned best quality and every
quality passed to the search-phase encoder lie in `[floor, ceiling]`. -/
theorem tested_qualities_within_range (sim : Int → ℚ) (target : ℚ)
    (floor ceiling : Int) (hfc : floor ≤ ceiling) :
    (floor ≤ (findBestQuality sim target floor ceiling).1 ∧
      (findBestQuality sim target floor ceiling).1 ≤ ceiling) ∧
    ∀ e ∈ (findBestQuality sim target floor ceiling).2,
      floor ≤ e.1 ∧ e.1 ≤ ceiling :=
  searchGo_bounds sim target floor ceiling _ floor ceiling ceiling
    le_rfl le_rfl hfc le_rfl

/-- Claim C10 witness: with the default bounds 40 and 95, the returned
best quality stays within `[40, 95]`. -/
theorem tested_qualities_within_range_witness :
    (40:Int) ≤ 95 ∧
      40 ≤ (findBestQuality simStep60 TARGET_SSIM 40 95).1 ∧
      (findBestQuality simStep60 TARGET_SSIM 40 95).1 ≤ 95 :=
  ⟨by decide,
    (tested_qualities_within_range simStep60 TARGET_SSIM 40 95 (by decide)).1.1,
    (tested_qualities_within_range simStep60 TARGET_SSIM 40 95 (by decide)).1.2⟩

/-- The search loop with a fallible encoder in front of each similarity
measurement: `subprocess.run(cmd, ..., check=True)` (source line 84) raises
`CalledProcessError` on a non-zero exit, modeled as `none`; no handler
exists inside the loop. -/
def searchRunE (encOk : Int → Bool) (sim : Int → ℚ) (target : ℚ) :
    Nat → Int → Int → Int → Option Int
  | 0, _, _, best => some best
  | fuel + 1, low, high, best =>
    if low ≤ high then
      if encOk (Int.fdiv (low + high) 2) then
        if target ≤ sim (Int.fdiv (low + high) 2) then
          searchRunE encOk sim target fuel low (Int.fdiv (low + high) 2 - 1)
            (Int.fdiv (low + high) 2)
        else
          searchRunE encOk sim target fuel (Int.fdiv (low + high) 2 + 1) high
            best
      else
        none
    else
      some best

/-- One image's processing with a fallible encoder: the search invocations
(line 84) and the final invocation (line 103) all use `check=True`, so a
failure of any of them raises out of the per-image body. -/
def processImageE (encOk : Int → Bool) (sim : Int → ℚ) (target : ℚ)
    (floor ceiling : Int) : Option Int :=
  match searchRunE encOk sim target (ceiling + 1 - floor).toNat floor ceiling
      ceiling with
  | some best => if encOk best then some best else none
  | none => none

/-- The batch loop of `auto_optimize_images` (source lines 63-120).  No
`try`/`except` surrounds the per-image body, so a raised
`CalledProcessError` propagates out of the `for` loop and terminates the
whole function: the result is the list of `(filename, best_quality)` pairs
completed before any failure, plus a flag telling whether the batch
aborted with an exception. -/
def processBatch (encOk : String → Int → Bool) (sim : String → Int → ℚ)
    (target : ℚ) (floor ceiling : Int) :
    List String → List (String × Int) × Bool
  | [] => ([], false)
  | filename :: rest =>
    match processImageE (encOk filename) (sim filename) target floor ceiling with
    | some q =>
      ((filename, q) :: (processBatch encOk sim target floor ceiling rest).1,
        (processBatch encOk sim target floor ceiling rest).2)
    | none => ([], true)

/-- Filename constants used in the batch counterexample. -/
def nameA : String := "a.png"

/-- Second filename of the batch counterexample. -/
def nameB : String := "b.png"

/-- Third filename of the batch counterexample. -/
def nameC : String := "c.png"

/-- Encoder that fails (non-zero exit) on every invocation for `a.png` and
succeeds for every other image. -/
def encFailsOnA : String → Int → Bool := fun filename _ => filename != nameA

/-- Similarity oracle family reporting 1 for every image and quality. -/
def simAll : String → Int → ℚ := fun _ _ => 1

/-- Claim C3 counterexample: with an encoder that fails on `a.png` only,
the batch `[a.png, b.png]` produces no results at all and aborts — `b.png`
is never processed — although `b.png` alone processes fine.  The claim's
"the batch continues to the next image" is false for this code. -/
theorem encoder_failure_stops_batch_cex :
    (processBatch encFailsOnA simAll TARGET_SSIM MIN_QUALITY MAX_QUALITY
        [nameA, nameB]).1 = [] ∧
      (processBatch encFailsOnA simAll TARGET_SSIM MIN_QUALITY MAX_QUALITY
        [nameA, nameB]).2 = true ∧
      (processBatch encFailsOnA simAll TARGET_SSIM MIN_QUALITY MAX_QUALITY
        [nameB]).1 = [(nameB, 40)] := by
  with_unfolding_all decide

/-- Claim C3 (amended): an encoder failure while processing one image
stops that image with an error, and the exception propagates: the batch
does NOT continue — it ends with the results of the images completed
before the failing one, and later images are never processed. -/
theorem encoder_failure_aborts_batch (encOk : String → Int → Bool)
    (sim : String → Int → ℚ) (target : ℚ) (floor ceiling : Int)
    (pre : List String) (i : String) (post : List String)
    (hpre : ∀ j ∈ pre,
      processImageE (encOk j) (sim j) target floor ceiling ≠ none)
    (hi : processImageE (encOk i) (sim i) target floor ceiling = none) :
    processBatch encOk sim target floor ceiling (pre ++ i :: post) =
      ((processBatch encOk sim target floor ceiling pre).1, true) := by
  induction pre with
  | nil => simp only [List.nil_append, processBatch, hi]
  | cons j rest ih =>
    have hj := hpre j (by simp)
    rcases Option.ne_none_iff_exists'.mp hj with ⟨q, hq⟩
    simp only [List.cons_append, processBatch, hq, List.append_eq]
    rw [ih (fun x hx => hpre x (by simp [hx]))]

/-- Claim C3 amended-part witness: batch `[b.png, a.png, c.png]` with the
encoder failing on `a.png` keeps only `b.png`'s result and aborts. -/
theorem encoder_failure_aborts_batch_witness :
    processImageE (encFailsOnA nameA) (simAll nameA) TARGET_SSIM 40 95 =
        none ∧
      processBatch encFailsOnA simAll TARGET_SSIM 40 95
          [nameB, nameA, nameC] =
        ((processBatch encFailsOnA simAll TARGET_SSIM 40 95 [nameB]).1,
          true) :=
  ⟨by with_unfolding_all decide,
    encoder_failure_aborts_batch encFailsOnA simAll TARGET_SSIM 40 95
      [nameB] nameA [nameC] (by with_unfolding_all decide)
      (by with_unfolding_all decide)⟩

/-- Input path as built on source line 67 (`os.path.join('images', f)`). -/
def inputPathOf (filename : String) : String := "images/" ++ filename

/-- Output path as built on source line 69. -/
def outputPathOf (file_root : String) : String :=
  "optimized_images/" ++ file_root ++ ".webp"

/-- Rendered qualities in the configured range are never mistaken for the
final pass's extra flags. -/
lemma toString_quality_ne_flags {q : Int} (h1 : MIN_QUALITY ≤ q)
    (h2 : q ≤ MAX_QUALITY) :
    toString q ≠ "-sharp_yuv" ∧ toString q ≠ "-mt" := by
  have hq : q ∈ Finset.Icc (40:Int) 95 := Finset.mem_Icc.mpr ⟨h1, h2⟩
  revert hq
  revert q
  decide

/-- Paths under the source folder are never mistaken for the final pass's
extra flags. -/
lemma inputPathOf_ne_flags (filename : String) :
    inputPathOf filename ≠ "-sharp_yuv" ∧ inputPathOf filename ≠ "-mt" := by
  constructor <;>
    · intro h
      have h2 := congrArg String.data h
      rw [inputPathOf, String.data_append] at h2
      simp at h2

/-- Claim C7: every search-phase command consists of the candidate quality
with the fixed maximum effort `-m 6` and carries neither `-sharp_yuv` nor
`-mt`, while the single final command additionally enables `-mt` and the
quality-preserving `-sharp_yuv` filter; the filter appears on the final
pass only. -/
theorem filters_only_on_final_pass (sim : Int → ℚ) (filename file_root : String) :
    (∀ c ∈ (processImage sim TARGET_SSIM MIN_QUALITY MAX_QUALITY
        (inputPathOf filename) pathTmp (outputPathOf file_root)).2.1,
      (∃ q : Int, MIN_QUALITY ≤ q ∧ q ≤ MAX_QUALITY ∧
          c = searchCmd q (inputPathOf filename) pathTmp) ∧
        "-sharp_yuv" ∉ c ∧ "-mt" ∉ c) ∧
      (processImage sim TARGET_SSIM MIN_QUALITY MAX_QUALITY
          (inputPathOf filename) pathTmp (outputPathOf file_root)).2.2 =
        [finalCmd (findBestQuality sim TARGET_SSIM MIN_QUALITY MAX_QUALITY).1
          (inputPathOf filename) (outputPathOf file_root)] ∧
      "-sharp_yuv" ∈
        finalCmd (findBestQuality sim TARGET_SSIM MIN_QUALITY MAX_QUALITY).1
          (inputPathOf filename) (outputPathOf file_root) ∧
      "-mt" ∈
        finalCmd (findBestQuality sim TARGET_SSIM MIN_QUALITY MAX_QUALITY).1
          (inputPathOf filename) (outputPathOf file_root) := by
  refine ⟨?_, rfl, by simp [finalCmd], by simp [finalCmd]⟩
  intro c hc
  simp only [processImage, List.mem_map] at hc
  obtain ⟨e, he, rfl⟩ := hc
  have hb := (searchGo_bounds sim TARGET_SSIM MIN_QUALITY MAX_QUALITY _
    MIN_QUALITY MAX_QUALITY MAX_QUALITY le_rfl le_rfl (by decide) le_rfl).2 e he
  have hts := toString_quality_ne_flags hb.1 hb.2
  have hip := inputPathOf_ne_flags filename
  refine ⟨⟨e.1, hb.1, hb.2, rfl⟩, ?_, ?_⟩
  · intro hmem
    simp only [searchCmd, List.mem_cons, List.not_mem_nil, or_false] at hmem
    rcases hmem with h | h | h | h | h | h | h | h
    · exact absurd h (by decide)
    · exact absurd h (by decide)
    · exact hts.1 h.symm
    · exact absurd h (by decide)
    · exact absurd h (by decide)
    · exact hip.1 h.symm
    · exact absurd h (by decide)
    · exact absurd h (by decide)
  · intro hmem
    simp only [searchCmd, List.mem_cons, List.not_mem_nil, or_false] at hmem
    rcases hmem with h | h | h | h | h | h | h | h
    · exact absurd h (by decide)
    · exact absurd h (by decide)
    · exact hts.2 h.symm
    · exact absurd h (by decide)
    · exact absurd h (by decide)
    · exact hip.2 h.symm
    · exact absurd h (by decide)
    · exact absurd h (by decide)

/-- A grayscale image as produced by `Image.open(...).convert('L')` and
`np.array` (source lines 34-42): dimensions plus a pixel function (values
outside `[0, h) × [0, w)` are irrelevant).  Pixels and all arithmetic are
exact rationals. -/
structure GrayImage where
  h : Nat
  w : Nat
  pix : Nat → Nat → ℚ

/-- skimage's default SSIM window: `win_size = 7` in each dimension,
represented by its 49 offsets. -/
def win : Finset (Nat × Nat) := Finset.range 7 ×ˢ Finset.range 7

/-- Sum of a pixel function over the 7×7 window with top-left corner
`(a, b)`. -/
def winSum (f : Nat → Nat → ℚ) (a b : Nat) : ℚ :=
  ∑ p in win, f (a + p.1) (b + p.2)

/-- Windowed mean, as `uniform_filter` computes on interior points. -/
def uMean (f : Nat → Nat → ℚ) (a b : Nat) : ℚ := winSum f a b / 49

/-- Windowed sample covariance `cov_norm * (uxy - ux * uy)` with
`cov_norm = NP / (NP - 1) = 49/48` (skimage `use_sample_covariance=True`);
`covTerm x x a b` is the sample variance `vx`. -/
def covTerm (x y : Nat → Nat → ℚ) (a b : Nat) : ℚ :=
  49 / 48 * (winSum (fun i j => x i j * y i j) a b / 49 -
    uMean x a b * uMean y a b)

/-- The SSIM value of one window:
`S = (2 ux uy + C1)(2 vxy + C2) / ((ux² + uy² + C1)(vx + vy + C2))`.

Caveat on division: rational division makes `0 / 0 = 0` here, whereas
skimage's float pipeline produces NaN when a window denominator vanishes.
The denominator can vanish only when `c1 = c2 = 0`, i.e. `data_range = 0`
(a constant candidate image): with positive stabilizers it is strictly
positive (`ssimAt_denom_pos`), the convention is not exercised, and the
float pipeline computes the same finite value.  Theorems about the full
evaluator are therefore stated only for candidates with a positive data
range. -/
def ssimAt (x y : Nat → Nat → ℚ) (c1 c2 : ℚ) (a b : Nat) : ℚ :=
  ((2 * uMean x a b * uMean y a b + c1) * (2 * covTerm x y a b + c2)) /
    ((uMean x a b * uMean x a b + uMean y a b * uMean y a b + c1) *
      (covTerm x x a b + covTerm y y a b + c2))

/-- Mean SSIM over the `(h-6)(w-6)` windows fully inside an `h × w` image
(skimage computes filtered maps and crops `pad = 3` from each border, which
keeps exactly the full windows). -/
def mssim (h w : Nat) (x y : Nat → Nat → ℚ) (c1 c2 : ℚ) : ℚ :=
  (∑ a in Finset.range (h - 6), ∑ b in Finset.range (w - 6),
      ssimAt x y c1 c2 a b) / (((h - 6) * (w - 6) : Nat) : ℚ)

/-- All pixel values of an image, row-major. -/
def pixList (img : GrayImage) : List ℚ :=
  (List.range img.h).flatMap fun i =>
    (List.range img.w).map fun j => img.pix i j

/-- `img2_arr.max() - img2_arr.min()` (source line 44). -/
def dataRange (img : GrayImage) : ℚ :=
  (pixList img).max?.getD 0 - (pixList img).min?.getD 0

/-- `structural_similarity(img1_arr, img2_arr, data_range=R)` on
equal-shape arrays, with skimage defaults `K1 = 0.01`, `K2 = 0.03`:
`C1 = (K1·R)²` and `C2 = (K2·R)²`. -/
def ssimValue (x y : GrayImage) (R : ℚ) : ℚ :=
  mssim x.h x.w x.pix y.pix (R / 100 * (R / 100))
    (3 * R / 100 * (3 * R / 100))

/-- `calculate_ssim` (source lines 30-47).  A loading failure
(`Image.open` raising) is the loader returning `none`; `resize` models
`PIL.Image.resize` (line 39), which always returns the requested
dimensions, so only its pixel function is abstract.  The `except` branch
(lines 45-47) catches every exception, prints a warning and returns 0; the
returned flag records whether it ran.  Exceptions modeled: a failed load
on either side, `.max()` on an empty array, and skimage's
"win_size exceeds image extent" for sides smaller than 7. -/
def calculate_ssim (load : String → Option GrayImage)
    (resize : GrayImage → Nat → Nat → Nat → Nat → ℚ)
    (img1_path img2_path : String) : ℚ × Bool :=
  match load img1_path, load img2_path with
  | some img1, some img2 =>
    let img2' : GrayImage :=
      if img2.h = img1.h ∧ img2.w = img1.w then img2
      else ⟨img1.h, img1.w, resize img2 img1.h img1.w⟩
    if img1.h = 0 ∨ img1.w = 0 then (0, true)
    else if img1.h < 7 ∨ img1.w < 7 then (0, true)
    else (ssimValue img1 img2' (dataRange img2'), false)
  | _, _ => (0, true)

/-- The candidate image `calculate_ssim` actually feeds to the metric:
`img2` itself when the sizes agree, otherwise its resize to `img1`'s size
(source lines 38-39); `none` when either load fails. -/
def candidate (load : String → Option GrayImage)
    (resize : GrayImage → Nat → Nat → Nat → Nat → ℚ)
    (img1_path img2_path : String) : Option GrayImage :=
  match load img1_path, load img2_path with
  | some img1, some img2 =>
    some (if img2.h = img1.h ∧ img2.w = img1.w then img2
      else ⟨img1.h, img1.w, resize img2 img1.h img1.w⟩)
  | _, _ => none

/-- Expanding a sum of centered products. -/
lemma sum_centered_mul {ι : Type} (s : Finset ι) (f g : ι → ℚ) (cf cg : ℚ) :
    ∑ i in s, (f i - cf) * (g i - cg) =
      ∑ i in s, f i * g i - cf * ∑ i in s, g i - cg * ∑ i in s, f i +
        s.card * (cf * cg) := by
  simp only [sub_mul, mul_sub, Finset.sum_sub_distrib, ← Finset.sum_mul,
    ← Finset.mul_sum, Finset.sum_const, nsmul_eq_mul]
  ring

/-- The window has 49 cells. -/
lemma win_card : win.card = 49 := by decide

/-- Sums of self-products are non-negative. -/
lemma sum_mul_self_nonneg {ι : Type} (s : Finset ι) (f : ι → ℚ) :
    0 ≤ ∑ i in s, f i * f i :=
  Finset.sum_nonneg fun i _ => mul_self_nonneg (f i)

/-- Two-sided arithmetic-mean bound on a cross sum, from
`∑ (p ∓ q)² ≥ 0`. -/
lemma abs_two_mul_sum_mul_le {ι : Type} (s : Finset ι) (p q : ι → ℚ) :
    |2 * ∑ i in s, p i * q i| ≤
      ∑ i in s, p i * p i + ∑ i in s, q i * q i := by
  rw [abs_le]
  constructor
  · have h0 : 0 ≤ ∑ i in s, (p i + q i) * (p i + q i) :=
      sum_mul_self_nonneg s _
    have h1 : ∑ i in s, (p i + q i) * (p i + q i) =
        ∑ i in s, p i * p i + 2 * ∑ i in s, p i * q i +
          ∑ i in s, q i * q i := by
      rw [Finset.mul_sum, ← Finset.sum_add_distrib, ← Finset.sum_add_distrib]
      exact Finset.sum_congr rfl fun i _ => by ring
    linarith
  · have h0 : 0 ≤ ∑ i in s, (p i - q i) * (p i - q i) :=
      sum_mul_self_nonneg s _
    have h1 : ∑ i in s, (p i - q i) * (p i - q i) =
        ∑ i in s, p i * p i - 2 * ∑ i in s, p i * q i +
          ∑ i in s, q i * q i := by
      rw [Finset.mul_sum, ← Finset.sum_sub_distrib, ← Finset.sum_add_distrib]
      exact Finset.sum_congr rfl fun i _ => by ring
    linarith

/-- The sample covariance as a centered sum over the window. -/
lemma covTerm_eq_centered (x y : Nat → Nat → ℚ) (a b : Nat) :
    covTerm x y a b =
      (∑ p in win, (x (a + p.1) (b + p.2) - uMean x a b) *
        (y (a + p.1) (b + p.2) - uMean y a b)) / 48 := by
  rw [sum_centered_mul win (fun p => x (a + p.1) (b + p.2))
    (fun p => y (a + p.1) (b + p.2)) (uMean x a b) (uMean y a b)]
  simp only [covTerm, uMean, winSum, win_card]
  push_cast
  field_simp
  ring

/-- The sample variance is non-negative. -/
lemma covTerm_self_nonneg (x : Nat → Nat → ℚ) (a b : Nat) :
    0 ≤ covTerm x x a b := by
  rw [covTerm_eq_centered]
  exact div_nonneg (sum_mul_self_nonneg win _) (by norm_num)

/-- Cauchy–Schwarz-style bound on the sample covariance. -/
lemma abs_two_covTerm_le (x y : Nat → Nat → ℚ) (a b : Nat) :
    |2 * covTerm x y a b| ≤ covTerm x x a b + covTerm y y a b := by
  have h := abs_two_mul_sum_mul_le win
    (fun p => x (a + p.1) (b + p.2) - uMean x a b)
    (fun p => y (a + p.1) (b + p.2) - uMean y a b)
  rw [abs_le] at h ⊢
  rw [covTerm_eq_centered x y, covTerm_eq_centered x x, covTerm_eq_centered y y]
  constructor
  · linarith [h.1]
  · linarith [h.2]

/-- With positive stabilizers no window denominator vanishes: the
`0 / 0 = 0` convention in `ssimAt` is never exercised, and skimage's float
pipeline computes the same finite value instead of NaN. -/
lemma ssimAt_denom_pos (x y : Nat → Nat → ℚ) (c1 c2 : ℚ) (h1 : 0 < c1)
    (h2 : 0 < c2) (a b : Nat) :
    0 < (uMean x a b * uMean x a b + uMean y a b * uMean y a b + c1) *
      (covTerm x x a b + covTerm y y a b + c2) := by
  have hvx := covTerm_self_nonneg x a b
  have hvy := covTerm_self_nonneg y a b
  apply mul_pos
  · nlinarith [mul_self_nonneg (uMean x a b), mul_self_nonneg (uMean y a b)]
  · linarith

/-- Quotient bound: if numerator factors are dominated by the
(non-negative) denominator factors, the fraction is within `[-1, 1]`
(also when a denominator factor vanishes, since `q / 0 = 0`). -/
lemma abs_frac_le_one {a1 a2 b1 b2 : ℚ} (h1 : |a1| ≤ b1) (h2 : |a2| ≤ b2) :
    |a1 * a2 / (b1 * b2)| ≤ 1 := by
  rcases eq_or_ne (b1 * b2) 0 with hb | hb
  · rw [hb, div_zero, abs_zero]
    norm_num
  · have hb1 : 0 ≤ b1 := le_trans (abs_nonneg a1) h1
    have hb2 : 0 ≤ b2 := le_trans (abs_nonneg a2) h2
    have hbpos : 0 < b1 * b2 := lt_of_le_of_ne (mul_nonneg hb1 hb2) (Ne.symm hb)
    rw [abs_div, abs_mul, div_le_one (by rwa [abs_of_pos hbpos])]
    rw [abs_of_pos hbpos]
    exact mul_le_mul h1 h2 (abs_nonneg a2) hb1

/-- One window's SSIM value lies in `[-1, 1]` for non-negative
stabilizers. -/
lemma abs_ssimAt_le_one (x y : Nat → Nat → ℚ) (c1 c2 : ℚ)
    (h1 : 0 ≤ c1) (h2 : 0 ≤ c2) (a b : Nat) :
    |ssimAt x y c1 c2 a b| ≤ 1 := by
  rw [ssimAt]
  have hvx := covTerm_self_nonneg x a b
  have hvy := covTerm_self_nonneg y a b
  have hcov := abs_two_covTerm_le x y a b
  rw [abs_le] at hcov
  have hA1 : |2 * uMean x a b * uMean y a b + c1| ≤
      uMean x a b * uMean x a b + uMean y a b * uMean y a b + c1 := by
    rw [abs_le]
    constructor
    · nlinarith [mul_self_nonneg (uMean x a b + uMean y a b)]
    · nlinarith [mul_self_nonneg (uMean x a b - uMean y a b)]
  have hA2 : |2 * covTerm x y a b + c2| ≤
      covTerm x x a b + covTerm y y a b + c2 := by
    rw [abs_le]
    constructor
    · linarith [hcov.1]
    · linarith [hcov.2]
  exact abs_frac_le_one hA1 hA2

/-- The mean SSIM lies in `[-1, 1]` for non-negative stabilizers. -/
lemma abs_mssim_le_one (h w : Nat) (x y : Nat → Nat → ℚ) (c1 c2 : ℚ)
    (h1 : 0 ≤ c1) (h2 : 0 ≤ c2) : |mssim h w x y c1 c2| ≤ 1 := by
  rw [mssim]
  rcases eq_or_ne ((((h - 6) * (w - 6) : Nat)) : ℚ) 0 with hz | hz
  · rw [hz, div_zero, abs_zero]
    norm_num
  · have hpos : (0:ℚ) < (((h - 6) * (w - 6) : Nat) : ℚ) :=
      lt_of_le_of_ne (Nat.cast_nonneg _) (Ne.symm hz)
    rw [abs_div, abs_of_pos hpos, div_le_one hpos]
    calc |∑ a in Finset.range (h - 6), ∑ b in Finset.range (w - 6),
            ssimAt x y c1 c2 a b|
        ≤ ∑ a in Finset.range (h - 6), |∑ b in Finset.range (w - 6),
            ssimAt x y c1 c2 a b| := Finset.abs_sum_le_sum_abs _ _
      _ ≤ ∑ _a in Finset.range (h - 6), ((w - 6 : Nat) : ℚ) := by
          refine Finset.sum_le_sum fun a _ => ?_
          calc |∑ b in Finset.range (w - 6), ssimAt x y c1 c2 a b|
              ≤ ∑ b in Finset.range (w - 6), |ssimAt x y c1 c2 a b| :=
                Finset.abs_sum_le_sum_abs _ _
            _ ≤ ∑ _b in Finset.range (w - 6), (1:ℚ) :=
                Finset.sum_le_sum fun b _ => abs_ssimAt_le_one x y c1 c2 h1 h2 a b
            _ = ((w - 6 : Nat) : ℚ) := by
                simp [Finset.sum_const]
      _ = (((h - 6) * (w - 6) : Nat) : ℚ) := by
          simp [Finset.sum_const, nsmul_eq_mul, Nat.cast_mul]

/-- Comparing an image with itself gives 1 on each window, for positive
stabilizers. -/
lemma ssimAt_self (x : Nat → Nat → ℚ) (c1 c2 : ℚ) (h1 : 0 < c1)
    (h2 : 0 < c2) (a b : Nat) : ssimAt x x c1 c2 a b = 1 := by
  rw [ssimAt]
  have hvx := covTerm_self_nonneg x a b
  have hB1 : 0 < uMean x a b * uMean x a b + uMean x a b * uMean x a b + c1 := by
    nlinarith [mul_self_nonneg (uMean x a b)]
  have hB2 : 0 < covTerm x x a b + covTerm x x a b + c2 := by linarith
  have hnum : (2 * uMean x a b * uMean x a b + c1) *
      (2 * covTerm x x a b + c2) =
      (uMean x a b * uMean x a b + uMean x a b * uMean x a b + c1) *
        (covTerm x x a b + covTerm x x a b + c2) := by ring
  rw [hnum]
  exact div_self (ne_of_gt (mul_pos hB1 hB2))

/-- Comparing an image with itself gives mean SSIM exactly 1, for positive
stabilizers and an image at least 7×7. -/
lemma mssim_self_eq_one (h w : Nat) (x : Nat → Nat → ℚ) (c1 c2 : ℚ)
    (h1 : 0 < c1) (h2 : 0 < c2) (hh : 7 ≤ h) (hw : 7 ≤ w) :
    mssim h w x x c1 c2 = 1 := by
  rw [mssim]
  rw [Finset.sum_congr rfl fun a _ =>
    Finset.sum_congr rfl fun b _ => ssimAt_self x c1 c2 h1 h2 a b]
  simp only [Finset.sum_const, Finset.card_range, nsmul_eq_mul, mul_one]
  rw [← Nat.cast_mul]
  exact div_self (Nat.cast_ne_zero.mpr (Nat.mul_ne_zero (by omega) (by omega)))

/-- `structural_similarity` with the stabilizers used here always lands in
`[-1, 1]`, whatever the data range. -/
lemma ssimValue_bounds (x y : GrayImage) (R : ℚ) :
    -1 ≤ ssimValue x y R ∧ ssimValue x y R ≤ 1 := by
  have hb := abs_mssim_le_one x.h x.w x.pix y.pix (R / 100 * (R / 100))
    (3 * R / 100 * (3 * R / 100)) (mul_self_nonneg _) (mul_self_nonneg _)
  rw [abs_le] at hb
  exact hb

/-- Claim C2 (amended): whenever the candidate image actually fed to the
metric has a positive pixel range (`data_range > 0`, so both stabilizers
are positive and no window denominator vanishes — `ssimAt_denom_pos`),
the similarity evaluator returns a score in `[-1, 1]`; its exception path
returns 0.  The claimed lower bound 0 is wrong: SSIM is negative on
anti-correlated images (see the counterexample).  For a zero pixel range
(a constant candidate, e.g. solid-color images) skimage's float pipeline
instead computes 0/0 = NaN with no exception; that is float behavior the
rational model cannot express, hence excluded by the hypothesis. -/
theorem calculate_ssim_range (load : String → Option GrayImage)
    (resize : GrayImage → Nat → Nat → Nat → Nat → ℚ)
    (img1_path img2_path : String)
    (hR : ∀ img2' : GrayImage,
      candidate load resize img1_path img2_path = some img2' →
      0 < dataRange img2') :
    -1 ≤ (calculate_ssim load resize img1_path img2_path).1 ∧
      (calculate_ssim load resize img1_path img2_path).1 ≤ 1 := by
  cases hl1 : load img1_path with
  | none =>
    simp only [calculate_ssim, hl1]
    cases load img2_path <;> norm_num
  | some img1 =>
    cases hl2 : load img2_path with
    | none =>
      simp only [calculate_ssim, hl1, hl2]
      norm_num
    | some img2 =>
      have hpos : 0 < dataRange
          (if img2.h = img1.h ∧ img2.w = img1.w then img2
            else ⟨img1.h, img1.w, resize img2 img1.h img1.w⟩) :=
        hR _ (by simp only [candidate, hl1, hl2])
      simp only [calculate_ssim, hl1, hl2]
      split_ifs <;>
        first
          | exact ssimValue_bounds _ _ _
          | norm_num

/-- 7×7 checkerboard image with values 255 and 0, as decoded from a real
grayscale file. -/
def imgCheck : GrayImage :=
  ⟨7, 7, fun i j => if (i + j) % 2 = 0 then 255 else 0⟩

/-- The inverted checkerboard. -/
def imgCheckInv : GrayImage :=
  ⟨7, 7, fun i j => if (i + j) % 2 = 0 then 0 else 255⟩

/-- Loader of the C2 counterexample: the source decodes to the
checkerboard, the candidate to its inverse. -/
def loadCex : String → Option GrayImage := fun p =>
  if p = pathIn then some imgCheck
  else if p = pathTmp then some imgCheckInv
  else none

/-- Trivial resizer (never used on equal-size inputs). -/
def resizeZero : GrayImage → Nat → Nat → Nat → Nat → ℚ := fun _ _ _ _ _ => 0

set_option maxRecDepth 4000 in
/-- Claim C2 counterexample: on a 7×7 checkerboard against its inverse the
evaluator returns a negative score — outside the claimed `[0, 1]`. -/
theorem calculate_ssim_negative_cex :
    (calculate_ssim loadCex resizeZero pathIn pathTmp).1 < 0 := by
  with_unfolding_all decide

set_option maxRecDepth 4000 in
/-- Claim C2 amended-part witness: the checkerboard candidate has pixel
range 255 > 0, and the returned (negative) score indeed lies in
`[-1, 1]`. -/
theorem calculate_ssim_range_witness :
    0 < dataRange imgCheckInv ∧
      (-1 ≤ (calculate_ssim loadCex resizeZero pathIn pathTmp).1 ∧
        (calculate_ssim loadCex resizeZero pathIn pathTmp).1 ≤ 1) :=
  ⟨by with_unfolding_all decide,
    calculate_ssim_range loadCex resizeZero pathIn pathTmp
      (fun img2' hc => by
        have heq : candidate loadCex resizeZero pathIn pathTmp =
            some imgCheckInv := by with_unfolding_all rfl
        rw [heq] at hc
        rw [← Option.some.inj hc]
        with_unfolding_all decide)⟩

/-- Claim C6: every modeled evaluation failure — a missing or undecodable
file on either side, or a source image too small for the 7×7 SSIM window —
makes `calculate_ssim` return score 0 with the warning flag set; the
function is total (the `except Exception` branch catches everything), so an
evaluation failure never aborts the batch. -/
theorem evaluation_failure_returns_zero (load : String → Option GrayImage)
    (resize : GrayImage → Nat → Nat → Nat → Nat → ℚ)
    (img1_path img2_path : String)
    (hfail : load img1_path = none ∨ load img2_path = none ∨
      ∃ img1 : GrayImage, load img1_path = some img1 ∧
        (img1.h < 7 ∨ img1.w < 7)) :
    calculate_ssim load resize img1_path img2_path = (0, true) := by
  rcases hfail with h | h | ⟨img1, h, hsz⟩
  · cases h2 : load img2_path <;> simp [calculate_ssim, h, h2]
  · cases h1 : load img1_path <;> simp [calculate_ssim, h, h1]
  · cases h2 : load img2_path with
    | none => simp [calculate_ssim, h, h2]
    | some img2 =>
      simp only [calculate_ssim, h, h2]
      by_cases hz : img1.h = 0 ∨ img1.w = 0
      · rw [if_pos hz]
      · rw [if_neg hz, if_pos (by omega)]

/-- Loader that fails on every path (missing or undecodable files). -/
def loadNone : String → Option GrayImage := fun _ => none

/-- Claim C6 witness: both loads fail; the evaluator returns `(0, true)`
— score 0 and a warning — instead of raising. -/
theorem evaluation_failure_returns_zero_witness :
    loadNone pathIn = none ∧
      calculate_ssim loadNone resizeZero pathIn pathTmp = (0, true) :=
  ⟨rfl, evaluation_failure_returns_zero loadNone resizeZero pathIn pathTmp
    (Or.inl rfl)⟩

/-- Claim C8 (amended): for bit-for-bit identical inputs that decode to an
image at least 7×7 with a positive pixel range, the evaluator returns
exactly 1 (hence ≥ 0.999). -/
theorem identical_images_score_one (load : String → Option GrayImage)
    (resize : GrayImage → Nat → Nat → Nat → Nat → ℚ)
    (img1_path img2_path : String) (img : GrayImage)
    (hl1 : load img1_path = some img) (hl2 : load img2_path = some img)
    (hh : 7 ≤ img.h) (hw : 7 ≤ img.w) (hR : 0 < dataRange img) :
    (calculate_ssim load resize img1_path img2_path).1 = 1 := by
  have h100 : (0:ℚ) < 100 := by norm_num
  have hc1 : 0 < dataRange img / 100 * (dataRange img / 100) :=
    mul_pos (div_pos hR h100) (div_pos hR h100)
  have hc2 : 0 < 3 * dataRange img / 100 * (3 * dataRange img / 100) :=
    mul_pos (div_pos (by linarith) h100) (div_pos (by linarith) h100)
  simp only [calculate_ssim, hl1, hl2]
  rw [if_neg (show ¬(img.h = 0 ∨ img.w = 0) by omega),
    if_neg (show ¬(img.h < 7 ∨ img.w < 7) by omega)]
  simp only [and_self, if_true]
  show ssimValue img img (dataRange img) = 1
  rw [ssimValue]
  exact mssim_self_eq_one img.h img.w img.pix _ _ hc1 hc2 hh hw

/-- Loader of the C8 witness: both paths decode to the same 7×7
checkerboard. -/
def loadSame : String → Option GrayImage := fun p =>
  if p = pathIn ∨ p = pathTmp then some imgCheck else none

set_option maxRecDepth 4000 in
/-- Claim C8 amended-part witness: two identical 7×7 checkerboard files
score exactly 1. -/
theorem identical_images_score_one_witness :
    0 < dataRange imgCheck ∧
      (calculate_ssim loadSame resizeZero pathIn pathTmp).1 = 1 :=
  ⟨by with_unfolding_all decide,
    identical_images_score_one loadSame resizeZero pathIn pathTmp imgCheck
      (by with_unfolding_all rfl) (by with_unfolding_all rfl)
      (by decide) (by decide) (by with_unfolding_all decide)⟩

/-- A 1×1 image. -/
def imgTiny : GrayImage := ⟨1, 1, fun _ _ => 128⟩

/-- Loader of the C8 counterexample: both paths decode to the same 1×1
image. -/
def loadTiny : String → Option GrayImage := fun p =>
  if p = pathIn ∨ p = pathTmp then some imgTiny else none

/-- Claim C8 counterexample: two bit-for-bit identical 1×1 files score 0
(the 7×7 window does not fit, skimage raises "win_size exceeds image
extent", and the handler returns 0 with a warning) — far below 0.999. -/
theorem identical_tiny_images_score_cex :
    calculate_ssim loadTiny resizeZero pathIn pathTmp = (0, true) ∧
      ¬ (999 / 1000 : ℚ) ≤
        (calculate_ssim loadTiny resizeZero pathIn pathTmp).1 := by
  with_unfolding_all decide

end WebpOpt
